import Mathlib

/-!
Verification of the split-and-scatter processor
(`pkg/ccl/backupccl/split_and_scatter_processor.go`).

The Go source is shallowly embedded: keys (`roachpb.Key`) are byte
strings modelled as `List Nat`; the `splitAndScatterer` interface is a
record of pure oracles; the dispatcher goroutine, the worker loop and
the emitting `Run` loop are modelled as recursive functions that also
record their call/publish events so ordering properties can be stated.
The concurrency of the original (one dispatcher, two workers, one
emitter over Go channels) is modelled by the canonical schedule in
which the dispatcher runs to completion or error, then dispatched
chunks are processed in order; per-task event orderings proved here
are orderings within a single goroutine of the source and are
faithful to any schedule.
-/

set_option autoImplicit false

/-- Byte-string key, modelling `roachpb.Key`. -/
abbrev Key := List Nat

/-- Cluster node identifier, modelling `roachpb.NodeID` (0 is the
reserved unknown/unassigned sentinel). -/
abbrev NodeID := Nat

/-- Strict lexicographic order on byte strings, the order of
`roachpb.Key` comparison. -/
def keyLt : List Nat → List Nat → Bool
  | _, [] => false
  | [], _ :: _ => true
  | a :: as, b :: bs =>
    if a < b then true
    else if a = b then keyLt as bs
    else false

/-- Reflexive closure of `keyLt`. -/
def keyLe (a b : List Nat) : Bool :=
  if a = b then true else keyLt a b

/-- Value of a big-endian digit string in base 10. -/
def valBE : List Nat → Nat
  | [] => 0
  | d :: r => d * 10 ^ r.length + valBE r

/-- Fuel-driven base-10 digit extraction (most significant first);
terminates structurally on the fuel so the kernel can evaluate it. -/
def decDigitsFuel : Nat → Nat → List Nat
  | 0, n => [n % 10]
  | fuel + 1, n =>
    if n < 10 then [n]
    else decDigitsFuel fuel (n / 10) ++ [n % 10]

/-- Big-endian decimal digits of `n`, as produced by Go's
`fmt.Sprintf` verb `d` (so `0` renders as the single digit `0`). -/
def decDigits (n : Nat) : List Nat :=
  decDigitsFuel n n

/-- Decimal rendering of `n` as ASCII bytes. -/
def decBytes (n : Nat) : List Nat :=
  (decDigits n).map (fun d => d + 48)

/-- The ASCII bytes of the literal `node`. -/
def nodeLit : Key := [110, 111, 100, 101]

/-- The routing key for a node: ASCII `node` followed by the decimal
rendering of the node ID, modelling the
`roachpb.Key(fmt.Sprintf(..., nodeID))` construction in
`routingDatumsForNode`. -/
def routingBytes (n : NodeID) : Key :=
  nodeLit ++ decBytes n

/-- Model of `routingDatumsForNode`: the pair of routing datums for a
node, the start key and its immediate successor (`Key.Next` appends a
zero byte). -/
def routingDatumsForNode (n : NodeID) : Key × Key :=
  (routingBytes n, routingBytes n ++ [0])

theorem keyLt_append_left (p : List Nat) :
    ∀ xs ys : List Nat, keyLt (p ++ xs) (p ++ ys) = keyLt xs ys := by
  induction p with
  | nil => intro xs ys; rfl
  | cons a p ih =>
    intro xs ys
    simp [keyLt, ih]

theorem keyLt_nil_right (xs : List Nat) : keyLt xs [] = false := by
  cases xs <;> rfl

theorem keyLt_self_append_zero (k : List Nat) : keyLt k (k ++ [0]) = true := by
  have h := keyLt_append_left k [] [0]
  simpa using h

theorem keyLt_succ_adjacent :
    ∀ k m : List Nat, keyLt k m = true → keyLt m (k ++ [0]) = true → False := by
  intro k
  induction k with
  | nil =>
    intro m h1 h2
    cases m with
    | nil => simp [keyLt] at h1
    | cons c ms =>
      simp only [List.nil_append] at h2
      by_cases hc : c < 0
      · omega
      · by_cases hc0 : c = 0
        · subst hc0
          simp [keyLt, keyLt_nil_right] at h2
        · simp [keyLt, hc, hc0] at h2
  | cons a as ih =>
    intro m h1 h2
    cases m with
    | nil => simp [keyLt_nil_right] at h1
    | cons b bs =>
      simp only [List.cons_append] at h2
      by_cases hab : a < b
      · by_cases hba : b < a
        · omega
        · by_cases hbe : b = a
          · omega
          · simp [keyLt, hba, hbe] at h2
      · by_cases heq : a = b
        · subst heq
          simp [keyLt] at h1 h2
          exact ih bs h1 h2
        · simp [keyLt, hab, heq] at h1

theorem keyLt_map_add48 :
    ∀ xs ys : List Nat,
      keyLt (xs.map (fun d => d + 48)) (ys.map (fun d => d + 48)) = keyLt xs ys := by
  intro xs
  induction xs with
  | nil => intro ys; cases ys <;> rfl
  | cons a as ih =>
    intro ys
    cases ys with
    | nil => rfl
    | cons b bs =>
      simp only [List.map_cons, keyLt]
      by_cases hab : a < b
      · simp [hab]
      · by_cases heq : a = b
        · subst heq
          simp [hab, ih]
        · have h48 : ¬ a + 48 < b + 48 := by omega
          have h48e : ¬ a + 48 = b + 48 := by omega
          simp [hab, heq, h48, h48e]

theorem keyLt_append_zero_of_eq_length :
    ∀ xs ys : List Nat, xs.length = ys.length → keyLt xs ys = true →
      keyLt (xs ++ [0]) ys = true := by
  intro xs
  induction xs with
  | nil =>
    intro ys hlen h
    cases ys with
    | nil => simp [keyLt] at h
    | cons b bs => simp at hlen
  | cons a as ih =>
    intro ys hlen h
    cases ys with
    | nil => simp at hlen
    | cons b bs =>
      simp only [List.cons_append, keyLt] at h ⊢
      by_cases hab : a < b
      · simp [hab]
      · by_cases heq : a = b
        · simp only [heq, lt_irrefl, if_false, if_pos rfl] at h ⊢
          have hlen2 : as.length = bs.length := by simpa using hlen
          simp [hab, heq] at h
          simp [hab, heq, ih bs hlen2 h]
        · simp [hab, heq] at h

theorem valBE_lt (L : List Nat) (h : ∀ d ∈ L, d < 10) :
    valBE L < 10 ^ L.length := by
  induction L with
  | nil => simp [valBE]
  | cons d r ih =>
    have hd : d < 10 := h d (by simp)
    have hr : valBE r < 10 ^ r.length := ih (fun x hx => h x (by simp [hx]))
    have h1 : valBE (d :: r) = d * 10 ^ r.length + valBE r := rfl
    have h2 : (10:Nat) ^ (d :: r).length = 10 * 10 ^ r.length := by
      simp [List.length_cons, pow_succ]; ring
    have hdle : d + 1 ≤ 10 := hd
    calc valBE (d :: r) = d * 10 ^ r.length + valBE r := h1
    _ < d * 10 ^ r.length + 10 ^ r.length := by omega
    _ = (d + 1) * 10 ^ r.length := by ring
    _ ≤ 10 * 10 ^ r.length := by
          exact Nat.mul_le_mul_right _ hdle
    _ = 10 ^ (d :: r).length := h2.symm

theorem keyLt_valBE :
    ∀ xs ys : List Nat, xs.length = ys.length →
      (∀ d ∈ xs, d < 10) → (∀ d ∈ ys, d < 10) →
      keyLt xs ys = true → valBE xs < valBE ys := by
  intro xs
  induction xs with
  | nil =>
    intro ys hlen _ _ h
    cases ys with
    | nil => simp [keyLt] at h
    | cons b bs => simp at hlen
  | cons a as ih =>
    intro ys hlen hxs hys h
    cases ys with
    | nil => simp at hlen
    | cons b bs =>
      have hlen2 : as.length = bs.length := by simpa using hlen
      simp only [keyLt] at h
      by_cases hab : a < b
      · have hva : valBE as < 10 ^ as.length :=
          valBE_lt as (fun d hd => hxs d (by simp [hd]))
        have hstep : (a + 1) * 10 ^ as.length ≤ b * 10 ^ as.length :=
          Nat.mul_le_mul_right _ hab
        have h1 : valBE (a :: as) = a * 10 ^ as.length + valBE as := rfl
        have h2 : valBE (b :: bs) = b * 10 ^ bs.length + valBE bs := rfl
        rw [h1, h2, ← hlen2]
        have : a * 10 ^ as.length + valBE as < (a + 1) * 10 ^ as.length := by
          have : (a + 1) * 10 ^ as.length = a * 10 ^ as.length + 10 ^ as.length := by ring
          omega
        omega
      · by_cases heq : a = b
        · subst heq
          simp [hab] at h
          have hrec : valBE as < valBE bs :=
            ih bs hlen2 (fun d hd => hxs d (by simp [hd]))
              (fun d hd => hys d (by simp [hd])) h
          have h1 : valBE (a :: as) = a * 10 ^ as.length + valBE as := rfl
          have h2 : valBE (a :: bs) = a * 10 ^ bs.length + valBE bs := rfl
          rw [h1, h2, ← hlen2]
          omega
        · simp [hab, heq] at h

theorem keyLt_trichotomy :
    ∀ xs ys : List Nat, xs.length = ys.length → xs ≠ ys →
      keyLt xs ys = true ∨ keyLt ys xs = true := by
  intro xs
  induction xs with
  | nil =>
    intro ys hlen hne
    cases ys with
    | nil => exact absurd rfl hne
    | cons b bs => simp at hlen
  | cons a as ih =>
    intro ys hlen hne
    cases ys with
    | nil => simp at hlen
    | cons b bs =>
      have hlen2 : as.length = bs.length := by simpa using hlen
      by_cases hab : a < b
      · left; simp [keyLt, hab]
      · by_cases heq : a = b
        · subst heq
          have hne2 : as ≠ bs := by
            intro hcontra; exact hne (by rw [hcontra])
          rcases ih bs hlen2 hne2 with h | h
          · left; simp [keyLt, h]
          · right; simp [keyLt, h]
        · right
          have hba : b < a := by omega
          simp [keyLt, hba]

theorem valBE_append_single (L : List Nat) (d : Nat) :
    valBE (L ++ [d]) = 10 * valBE L + d := by
  induction L with
  | nil => simp [valBE]
  | cons a r ih =>
    have h1 : valBE ((a :: r) ++ [d]) = a * 10 ^ (r ++ [d]).length + valBE (r ++ [d]) := rfl
    have h2 : valBE (a :: r) = a * 10 ^ r.length + valBE r := rfl
    rw [h1, h2, ih]
    simp [List.length_append, pow_succ]
    ring

theorem decDigitsFuel_valBE :
    ∀ fuel n : Nat, n ≤ fuel → valBE (decDigitsFuel fuel n) = n := by
  intro fuel
  induction fuel with
  | zero =>
    intro n hn
    have : n = 0 := by omega
    subst this
    simp [decDigitsFuel, valBE]
  | succ f ih =>
    intro n hn
    by_cases h10 : n < 10
    · simp [decDigitsFuel, h10, valBE]
    · have hdiv : n / 10 ≤ f := by
        have : n / 10 < n := Nat.div_lt_self (by omega) (by omega)
        omega
      simp only [decDigitsFuel, h10, if_false]
      rw [valBE_append_single, ih (n / 10) hdiv]
      omega

theorem decDigitsFuel_lt10 :
    ∀ fuel n d : Nat, d ∈ decDigitsFuel fuel n → d < 10 := by
  intro fuel
  induction fuel with
  | zero =>
    intro n d hd
    simp [decDigitsFuel] at hd
    subst hd
    exact Nat.mod_lt _ (by omega)
  | succ f ih =>
    intro n d hd
    by_cases h10 : n < 10
    · simp [decDigitsFuel, h10] at hd
      omega
    · simp only [decDigitsFuel, h10, if_false, List.mem_append, List.mem_singleton] at hd
      rcases hd with hd | hd
      · exact ih (n / 10) d hd
      · subst hd
        exact Nat.mod_lt _ (by omega)

theorem valBE_decDigits (n : Nat) : valBE (decDigits n) = n :=
  decDigitsFuel_valBE n n (le_refl n)

theorem decDigits_lt10 (n : Nat) : ∀ d ∈ decDigits n, d < 10 := by
  intro d hd
  exact decDigitsFuel_lt10 n n d hd

theorem decDigits_injective (a b : Nat) (h : decDigits a = decDigits b) : a = b := by
  have ha := valBE_decDigits a
  have hb := valBE_decDigits b
  rw [h] at ha
  omega

theorem routingBytes_injective (a b : NodeID) (h : routingBytes a = routingBytes b) :
    a = b := by
  have hdec : decBytes a = decBytes b := by
    have := List.append_cancel_left h
    exact this
  have hdig : decDigits a = decDigits b := by
    have hinj : Function.Injective (fun d : Nat => d + 48) := by
      intro x y hxy
      simpa using hxy
    exact List.map_injective_iff.mpr hinj hdec
  exact decDigits_injective a b hdig

theorem keyLt_routing_of_lt_same_length (a b : Nat) (hab : a < b)
    (hlen : (decDigits a).length = (decDigits b).length) :
    keyLt (routingBytes a ++ [0]) (routingBytes b) = true := by
  have hne : decDigits a ≠ decDigits b := by
    intro h
    exact absurd (decDigits_injective a b h) (by omega)
  have hdiglt : keyLt (decDigits a) (decDigits b) = true := by
    rcases keyLt_trichotomy (decDigits a) (decDigits b) hlen hne with h | h
    · exact h
    · exfalso
      have := keyLt_valBE (decDigits b) (decDigits a) hlen.symm
        (decDigits_lt10 b) (decDigits_lt10 a) h
      rw [valBE_decDigits, valBE_decDigits] at this
      omega
  have hmap : keyLt (decBytes a) (decBytes b) = true := by
    rw [decBytes, decBytes, keyLt_map_add48]
    exact hdiglt
  have hmaplen : (decBytes a).length = (decBytes b).length := by
    simp [decBytes, hlen]
  have happ : keyLt (decBytes a ++ [0]) (decBytes b) = true :=
    keyLt_append_zero_of_eq_length (decBytes a) (decBytes b) hmaplen hmap
  have : routingBytes a ++ [0] = nodeLit ++ (decBytes a ++ [0]) := by
    simp [routingBytes]
  rw [this, routingBytes, keyLt_append_left]
  exact happ

/-- Errors of the embedding: the two assertion failures raised by the
live scatterer when its configuration is missing, a wrapper mirroring
`errors.Wrapf(err, ...)` around a failed split, and opaque error
values carried by the external oracles. -/
inductive Err where
  | assertionKRNotSet : Err
  | assertionDBNotSet : Err
  | wrapped : Key → Err → Err
  | generic : Nat → Err
deriving DecidableEq, Repr

/-- A key span, modelling `roachpb.Span` (start key and end key). -/
structure Span where
  key : Key
  endKey : Key
deriving DecidableEq, Repr

/-- Model of `execinfrapb.RestoreSpanEntry`: a contiguous key span to
restore plus opaque references to the backup files supplying it. -/
structure RestoreSpanEntry where
  span : Span
  files : List Nat
deriving DecidableEq, Repr

/-- Model of `execinfrapb.SplitAndScatterSpec_RestoreEntryChunk`: one
chunk of the input specification, an ordered list of entries. -/
structure RestoreEntryChunk where
  entries : List RestoreSpanEntry
deriving DecidableEq, Repr

/-- Model of the `splitAndScatterer` interface: `split` issues a split
request at a key (`none` meaning success); `scatter` issues a scatter
request and returns the node ID the range was scattered to.  The
cluster is abstracted by these pure oracles. -/
structure splitAndScatterer where
  split : Key → Option Err
  scatter : Key → Except Err NodeID

/-- Model of `noopSplitAndScatterer`: both operations succeed
unconditionally and scatter reports node 0. -/
def noopSplitAndScatterer : splitAndScatterer where
  split := fun _ => none
  scatter := fun _ => Except.ok 0

/-- One range-placement descriptor of an `AdminScatterResponse`; the
field models `RangeInfos[i].Lease.Replica.NodeID`. -/
structure RangeInfo where
  leaseReplicaNodeID : NodeID
deriving DecidableEq, Repr

/-- Model of `roachpb.AdminScatterResponse`. -/
structure AdminScatterResponse where
  rangeInfos : List RangeInfo
deriving DecidableEq, Repr

/-- Oracle for the `kv.DB` handle: outcomes of `AdminSplit` (with the
expiration deadline abstracted away, as it does not affect control
flow) and of `kv.SendWrapped` with an `AdminScatterRequest`. -/
structure DB where
  adminSplit : Key → Option Err
  adminScatter : Key → Except Err AdminScatterResponse

/-- Oracle for the key-rewriting transform: `rewriteSpanKey k` is the
outcome of `rewriteBackupSpanKey(kr, k)` (defined outside this file;
treated as an external collaborator). -/
structure KeyRewriter where
  rewriteSpanKey : Key → Except Err Key

/-- Model of `dbSplitAndScatterer`: the live implementation holds the
database handle and the key rewriter, either of which may be unset
(`nil` in the source). -/
structure dbSplitAndScatterer where
  db : Option DB
  kr : Option KeyRewriter

/-- Model of `dbSplitAndScatterer.findDestination`: node of the first
range-placement descriptor, or 0 when none is present. -/
def dbSplitAndScatterer.findDestination (res : AdminScatterResponse) : NodeID :=
  match res.rangeInfos with
  | [] => 0
  | ri :: _ => ri.leaseReplicaNodeID

/-- Model of `dbSplitAndScatterer.split`: check the rewriter, check
the database handle, rewrite the key, then issue the split; a split
failure is wrapped with the rewritten key. -/
def dbSplitAndScatterer.split (s : dbSplitAndScatterer) (splitKey : Key) : Option Err :=
  match s.kr with
  | none => some Err.assertionKRNotSet
  | some kr =>
    match s.db with
    | none => some Err.assertionDBNotSet
    | some db =>
      match kr.rewriteSpanKey splitKey with
      | Except.error e => some e
      | Except.ok newSplitKey =>
        match db.adminSplit newSplitKey with
        | some e => some (Err.wrapped newSplitKey e)
        | none => none

/-- Model of `dbSplitAndScatterer.scatter`: check the rewriter, check
the database handle, rewrite the key, then issue the scatter request
over the span from the rewritten key to its immediate successor; an
error from the request itself is swallowed and node 0 is reported,
while a successful response is interpreted by `findDestination`. -/
def dbSplitAndScatterer.scatter (s : dbSplitAndScatterer) (scatterKey : Key) :
    Except Err NodeID :=
  match s.kr with
  | none => Except.error Err.assertionKRNotSet
  | some kr =>
    match s.db with
    | none => Except.error Err.assertionDBNotSet
    | some db =>
      match kr.rewriteSpanKey scatterKey with
      | Except.error e => Except.error e
      | Except.ok newScatterKey =>
        match db.adminScatter newScatterKey with
        | Except.error _ => Except.ok 0
        | Except.ok res => Except.ok (dbSplitAndScatterer.findDestination res)

/-- The configuration error reported by the live scatterer when a
required collaborator is unset: the rewriter is checked first. -/
def dbSplitAndScatterer.cfgErr (s : dbSplitAndScatterer) : Err :=
  match s.kr with
  | none => Err.assertionKRNotSet
  | some _ => Err.assertionDBNotSet

/-- Model of `entryNode`: an entry paired with the node it has been
routed to, the element type of the completion channel. -/
structure entryNode where
  entry : RestoreSpanEntry
  node : NodeID
deriving DecidableEq, Repr

/-- Model of `scatteredChunk`: the entries of one chunk together with
the node the chunk was scattered to. -/
structure scatteredChunk where
  destination : NodeID
  entries : List RestoreSpanEntry
deriving DecidableEq, Repr

/-- Observable events of the background pipeline: a split request, a
scatter request, and the publication of an entry to the completion
channel. -/
inductive PEvent where
  | splitCall : Key → PEvent
  | scatterCall : Key → PEvent
  | publish : entryNode → PEvent
deriving DecidableEq, Repr

/-- The scatter key of a chunk: `chunk.Entries[0].Span.Key` in the
source (the source indexes unconditionally, so chunks are required to
be non-empty; the empty case here is a harmless total default). -/
def leadKey (c : RestoreEntryChunk) : Key :=
  match c.entries with
  | [] => []
  | e :: _ => e.span.key

/-- The destination a chunk is scattered to, when the scatter call on
its leading key succeeds (0 otherwise). -/
def chunkDest (s : splitAndScatterer) (c : RestoreEntryChunk) : NodeID :=
  match s.scatter (leadKey c) with
  | Except.ok d => d
  | Except.error _ => 0

/-- Model of the dispatcher goroutine of `runSplitAndScatter` (the
first `g.GoCtx` closure): walking the chunk list in order, it splits
at the start of the next chunk when one exists, scatters the current
chunk's leading key, and publishes the scattered chunk to the work
channel; it stops at the first split or scatter error.  Returns the
events of its split/scatter calls, the published scattered chunks in
order, and its error outcome. -/
def runDispatcher (s : splitAndScatterer) :
    List RestoreEntryChunk → List PEvent × List scatteredChunk × Option Err
  | [] => ([], [], none)
  | [c] =>
    match s.scatter (leadKey c) with
    | Except.error e => ([PEvent.scatterCall (leadKey c)], [], some e)
    | Except.ok d =>
      ([PEvent.scatterCall (leadKey c)], [⟨d, c.entries⟩], none)
  | c :: c2 :: rest =>
    match s.split (leadKey c2) with
    | some e => ([PEvent.splitCall (leadKey c2)], [], some e)
    | none =>
      match s.scatter (leadKey c) with
      | Except.error e =>
        ([PEvent.splitCall (leadKey c2), PEvent.scatterCall (leadKey c)], [], some e)
      | Except.ok d =>
        let r := runDispatcher s (c2 :: rest)
        (PEvent.splitCall (leadKey c2) :: PEvent.scatterCall (leadKey c) :: r.1,
          ⟨d, c.entries⟩ :: r.2.1, r.2.2)

/-- Model of a worker's processing of one claimed chunk (the body of
the `for importSpanChunk := range importSpanChunksCh` loop): entries
are visited in order; before each entry other than the last, the next
entry's start key is split; then the entry is published to the
completion channel paired with the chunk's destination.  A split
error stops the worker without publishing the current entry. -/
def processEntries (s : splitAndScatterer) (dest : NodeID) :
    List RestoreSpanEntry → List PEvent × Option Err
  | [] => ([], none)
  | [e] => ([PEvent.publish ⟨e, dest⟩], none)
  | e :: e2 :: rest =>
    match s.split e2.span.key with
    | some err => ([PEvent.splitCall e2.span.key], some err)
    | none =>
      let r := processEntries s dest (e2 :: rest)
      (PEvent.splitCall e2.span.key :: PEvent.publish ⟨e, dest⟩ :: r.1, r.2)

/-- The worker pool draining the work channel, in the canonical
schedule where dispatched chunks are processed to completion in
dispatch order; processing stops at the first worker error. -/
def runSSWorkers (s : splitAndScatterer) :
    List scatteredChunk → List PEvent × Option Err
  | [] => ([], none)
  | sc :: rest =>
    let p := processEntries s sc.destination sc.entries
    match p.2 with
    | some e => (p.1, some e)
    | none =>
      let r := runSSWorkers s rest
      (p.1 ++ r.1, r.2)

/-- Model of `runSplitAndScatter`: the dispatcher followed by the
worker pool over the dispatched chunks; the error outcome is the
dispatcher's error if any, otherwise the workers' (first error
wins). -/
def runSplitAndScatter (s : splitAndScatterer) (chunks : List RestoreEntryChunk) :
    List PEvent × Option Err :=
  let d := runDispatcher s chunks
  let w := runSSWorkers s d.2.1
  (d.1 ++ w.1,
    match d.2.2 with
    | some e => some e
    | none => w.2)

/-- The entries published to the completion channel, in publication
order, read off an event list. -/
def publishedEntries : List PEvent → List entryNode
  | [] => []
  | PEvent.publish e :: rest => e :: publishedEntries rest
  | PEvent.splitCall _ :: rest => publishedEntries rest
  | PEvent.scatterCall _ :: rest => publishedEntries rest

/-- The complete split/scatter call sequence of the dispatcher on an
error-free run: for each chunk, the boundary split at the next
chunk's leading key (absent for the last chunk) immediately followed
by the scatter of the current chunk's leading key. -/
def dispatcherTrace : List RestoreEntryChunk → List PEvent
  | [] => []
  | [c] => [PEvent.scatterCall (leadKey c)]
  | c :: c2 :: rest =>
    PEvent.splitCall (leadKey c2) :: PEvent.scatterCall (leadKey c) ::
      dispatcherTrace (c2 :: rest)

/-- The complete event sequence of a worker processing one chunk on an
error-free run: for each entry except the last, the split at the next
entry's start key immediately followed by the publication of the
current entry; the last entry is published with no preceding split. -/
def workerChunkTrace (dest : NodeID) : List RestoreSpanEntry → List PEvent
  | [] => []
  | [e] => [PEvent.publish ⟨e, dest⟩]
  | e :: e2 :: rest =>
    PEvent.splitCall e2.span.key :: PEvent.publish ⟨e, dest⟩ ::
      workerChunkTrace dest (e2 :: rest)

/-- State of the emitting loop of `splitAndScatterProcessor.Run`: the
routing-datum cache, the log of node IDs for which a routing datum
was actually derived (in derivation order), the rows pushed so far,
and the error metadata pushed on a serialization failure. -/
structure EmitState where
  cache : List (NodeID × Key)
  derived : List NodeID
  rows : List (Key × List Nat)
  metaErr : Option Err
deriving DecidableEq, Repr

/-- Lookup in the routing-datum cache. -/
def lookupNode : List (NodeID × Key) → NodeID → Option Key
  | [], _ => none
  | (m, t) :: rest, n => if m = n then some t else lookupNode rest n

/-- The initial state of the emitting loop. -/
def initEmitState : EmitState := ⟨[], [], [], none⟩

/-- Model of the `for scatteredEntry := range doneScatterCh` loop of
`splitAndScatterProcessor.Run`: each completed entry is serialized
(a serialization failure pushes the error and breaks the loop), the
routing datum for its node is taken from the cache or derived and
cached on a miss, and the row (routing datum, serialized entry) is
pushed. -/
def emitEntries (marshal : RestoreSpanEntry → Except Err (List Nat)) :
    EmitState → List entryNode → EmitState
  | st, [] => st
  | st, en :: rest =>
    match marshal en.entry with
    | Except.error e => { st with metaErr := some e }
    | Except.ok entryBytes =>
      match lookupNode st.cache en.node with
      | some tok =>
        emitEntries marshal
          { st with rows := st.rows ++ [(tok, entryBytes)] } rest
      | none =>
        let tok := (routingDatumsForNode en.node).1
        emitEntries marshal
          { st with
            cache := (en.node, tok) :: st.cache,
            derived := st.derived ++ [en.node],
            rows := st.rows ++ [(tok, entryBytes)] } rest

/-- What `splitAndScatterProcessor.Run` pushes to its output: the
rows, and the error metadata messages in push order. -/
structure RunOutput where
  rows : List (Key × List Nat)
  metas : List Err
deriving DecidableEq, Repr

/-- Model of `splitAndScatterProcessor.Run`: the background pipeline
runs and the emitting loop drains the completion channel; after the
loop, the background error, if any, is pushed as error metadata (a
serialization failure pushes its own metadata first). -/
def splitAndScatterProcessor.Run (s : splitAndScatterer)
    (marshal : RestoreSpanEntry → Except Err (List Nat))
    (chunks : List RestoreEntryChunk) : RunOutput :=
  let bg := runSplitAndScatter s chunks
  let st := emitEntries marshal initEmitState (publishedEntries bg.1)
  { rows := st.rows,
    metas :=
      (match st.metaErr with
        | some e => [e]
        | none => []) ++
      (match bg.2 with
        | some e => [e]
        | none => []) }

theorem publishedEntries_append :
    ∀ xs ys : List PEvent,
      publishedEntries (xs ++ ys) = publishedEntries xs ++ publishedEntries ys := by
  intro xs ys
  induction xs with
  | nil => rfl
  | cons x rest ih =>
    cases x <;> simp [publishedEntries, ih]

theorem runDispatcher_ok (s : splitAndScatterer) :
    ∀ chunks : List RestoreEntryChunk,
      (runDispatcher s chunks).2.2 = none →
      (runDispatcher s chunks).1 = dispatcherTrace chunks
      ∧ (runDispatcher s chunks).2.1
          = chunks.map (fun c => ⟨chunkDest s c, c.entries⟩)
      ∧ ∀ c ∈ chunks, s.scatter (leadKey c) = Except.ok (chunkDest s c) := by
  intro chunks
  induction chunks with
  | nil => intro _; exact ⟨rfl, rfl, by simp⟩
  | cons c rest ih =>
    cases rest with
    | nil =>
      intro herr
      cases hs : s.scatter (leadKey c) with
      | error e => simp [runDispatcher, hs] at herr
      | ok d =>
        have hdest : chunkDest s c = d := by simp [chunkDest, hs]
        refine ⟨?_, ?_, ?_⟩
        · simp [runDispatcher, hs, dispatcherTrace]
        · simp [runDispatcher, hs, hdest]
        · intro c2 hc2
          simp at hc2
          subst hc2
          rw [hs, hdest]
    | cons c2 rest2 =>
      intro herr
      cases hsp : s.split (leadKey c2) with
      | some e => simp [runDispatcher, hsp] at herr
      | none =>
        cases hs : s.scatter (leadKey c) with
        | error e => simp [runDispatcher, hsp, hs] at herr
        | ok d =>
          have herr2 : (runDispatcher s (c2 :: rest2)).2.2 = none := by
            simpa [runDispatcher, hsp, hs] using herr
          obtain ⟨ih1, ih2, ih3⟩ := ih herr2
          have hdest : chunkDest s c = d := by simp [chunkDest, hs]
          refine ⟨?_, ?_, ?_⟩
          · simp [runDispatcher, hsp, hs, dispatcherTrace, ih1]
          · simp [runDispatcher, hsp, hs, hdest, ih2]
          · intro x hx
            rcases List.mem_cons.mp hx with hx | hx
            · subst hx; rw [hs, hdest]
            · exact ih3 x hx

theorem runDispatcher_trace_initial (s : splitAndScatterer) :
    ∀ chunks : List RestoreEntryChunk,
      ∃ k, (runDispatcher s chunks).1 = (dispatcherTrace chunks).take k := by
  intro chunks
  induction chunks with
  | nil => exact ⟨0, rfl⟩
  | cons c rest ih =>
    cases rest with
    | nil =>
      cases hs : s.scatter (leadKey c) with
      | error e => exact ⟨1, by simp [runDispatcher, hs, dispatcherTrace]⟩
      | ok d => exact ⟨1, by simp [runDispatcher, hs, dispatcherTrace]⟩
    | cons c2 rest2 =>
      cases hsp : s.split (leadKey c2) with
      | some e => exact ⟨1, by simp [runDispatcher, hsp, dispatcherTrace]⟩
      | none =>
        cases hs : s.scatter (leadKey c) with
        | error e => exact ⟨2, by simp [runDispatcher, hsp, hs, dispatcherTrace]⟩
        | ok d =>
          obtain ⟨k, hk⟩ := ih
          exact ⟨k + 2, by simp [runDispatcher, hsp, hs, dispatcherTrace, hk]⟩

theorem runDispatcher_err (s : splitAndScatterer) :
    ∀ (chunks : List RestoreEntryChunk) (e : Err),
      (runDispatcher s chunks).2.2 = some e →
      ∃ j, j < chunks.length ∧
        (runDispatcher s chunks).2.1
          = (chunks.take j).map (fun c => ⟨chunkDest s c, c.entries⟩) := by
  intro chunks
  induction chunks with
  | nil => intro e herr; simp [runDispatcher] at herr
  | cons c rest ih =>
    cases rest with
    | nil =>
      intro e herr
      cases hs : s.scatter (leadKey c) with
      | error e2 => exact ⟨0, by simp, by simp [runDispatcher, hs]⟩
      | ok d => simp [runDispatcher, hs] at herr
    | cons c2 rest2 =>
      intro e herr
      cases hsp : s.split (leadKey c2) with
      | some e2 => exact ⟨0, by simp, by simp [runDispatcher, hsp]⟩
      | none =>
        cases hs : s.scatter (leadKey c) with
        | error e2 => exact ⟨0, by simp, by simp [runDispatcher, hsp, hs]⟩
        | ok d =>
          have herr2 : (runDispatcher s (c2 :: rest2)).2.2 = some e := by
            simpa [runDispatcher, hsp, hs] using herr
          obtain ⟨j, hj, hscs⟩ := ih e herr2
          have hdest : chunkDest s c = d := by simp [chunkDest, hs]
          refine ⟨j + 1, by simpa using Nat.succ_lt_succ hj, ?_⟩
          simp [runDispatcher, hsp, hs, hdest, hscs]

theorem runDispatcher_no_publish (s : splitAndScatterer) :
    ∀ chunks : List RestoreEntryChunk,
      publishedEntries (runDispatcher s chunks).1 = [] := by
  intro chunks
  induction chunks with
  | nil => rfl
  | cons c rest ih =>
    cases rest with
    | nil =>
      cases hs : s.scatter (leadKey c) with
      | error e => simp [runDispatcher, hs, publishedEntries]
      | ok d => simp [runDispatcher, hs, publishedEntries]
    | cons c2 rest2 =>
      cases hsp : s.split (leadKey c2) with
      | some e => simp [runDispatcher, hsp, publishedEntries]
      | none =>
        cases hs : s.scatter (leadKey c) with
        | error e => simp [runDispatcher, hsp, hs, publishedEntries]
        | ok d => simp [runDispatcher, hsp, hs, publishedEntries, ih]

theorem processEntries_ok (s : splitAndScatterer) (dest : NodeID) :
    ∀ es : List RestoreSpanEntry,
      (processEntries s dest es).2 = none →
      (processEntries s dest es).1 = workerChunkTrace dest es := by
  intro es
  induction es with
  | nil => intro _; rfl
  | cons e rest ih =>
    cases rest with
    | nil => intro _; rfl
    | cons e2 rest2 =>
      intro herr
      cases hsp : s.split e2.span.key with
      | some err => simp [processEntries, hsp] at herr
      | none =>
        have herr2 : (processEntries s dest (e2 :: rest2)).2 = none := by
          simpa [processEntries, hsp] using herr
        simp [processEntries, hsp, workerChunkTrace, ih herr2]

theorem processEntries_trace_initial (s : splitAndScatterer) (dest : NodeID) :
    ∀ es : List RestoreSpanEntry,
      ∃ k, (processEntries s dest es).1 = (workerChunkTrace dest es).take k := by
  intro es
  induction es with
  | nil => exact ⟨0, rfl⟩
  | cons e rest ih =>
    cases rest with
    | nil => exact ⟨1, rfl⟩
    | cons e2 rest2 =>
      cases hsp : s.split e2.span.key with
      | some err => exact ⟨1, by simp [processEntries, hsp, workerChunkTrace]⟩
      | none =>
        obtain ⟨k, hk⟩ := ih
        exact ⟨k + 2, by simp [processEntries, hsp, workerChunkTrace, hk]⟩

theorem workerChunkTrace_published (dest : NodeID) :
    ∀ es : List RestoreSpanEntry,
      publishedEntries (workerChunkTrace dest es)
        = es.map (fun e => ⟨e, dest⟩) := by
  intro es
  induction es with
  | nil => rfl
  | cons e rest ih =>
    cases rest with
    | nil => rfl
    | cons e2 rest2 => simp [workerChunkTrace, publishedEntries, ih]

theorem runSSWorkers_ok (s : splitAndScatterer) :
    ∀ scs : List scatteredChunk,
      (runSSWorkers s scs).2 = none →
      publishedEntries (runSSWorkers s scs).1
        = (scs.map (fun sc => sc.entries.map (fun e => ⟨e, sc.destination⟩))).flatten := by
  intro scs
  induction scs with
  | nil => intro _; rfl
  | cons sc rest ih =>
    intro herr
    cases hp : (processEntries s sc.destination sc.entries).2 with
    | some e => simp [runSSWorkers, hp] at herr
    | none =>
      have herr2 : (runSSWorkers s rest).2 = none := by
        simpa [runSSWorkers, hp] using herr
      have hev := processEntries_ok s sc.destination sc.entries hp
      simp [runSSWorkers, hp, publishedEntries_append, hev,
        workerChunkTrace_published, ih herr2]

theorem runSplitAndScatter_ok (s : splitAndScatterer)
    (chunks : List RestoreEntryChunk)
    (herr : (runSplitAndScatter s chunks).2 = none) :
    publishedEntries (runSplitAndScatter s chunks).1
      = (chunks.map (fun c => c.entries.map (fun e => ⟨e, chunkDest s c⟩))).flatten
    ∧ ∀ c ∈ chunks, s.scatter (leadKey c) = Except.ok (chunkDest s c) := by
  have hd : (runDispatcher s chunks).2.2 = none := by
    cases hcase : (runDispatcher s chunks).2.2 with
    | none => rfl
    | some e => simp [runSplitAndScatter, hcase] at herr
  have hw : (runSSWorkers s (runDispatcher s chunks).2.1).2 = none := by
    simpa [runSplitAndScatter, hd] using herr
  obtain ⟨_, hscs, hscatter⟩ := runDispatcher_ok s chunks hd
  refine ⟨?_, hscatter⟩
  have hworkers := runSSWorkers_ok s (runDispatcher s chunks).2.1 hw
  have : publishedEntries (runSplitAndScatter s chunks).1
      = publishedEntries (runDispatcher s chunks).1
        ++ publishedEntries (runSSWorkers s (runDispatcher s chunks).2.1).1 := by
    simp [runSplitAndScatter, publishedEntries_append]
  rw [this, runDispatcher_no_publish s chunks, List.nil_append, hworkers, hscs]
  simp [List.map_map]
  rfl

theorem lookupNode_mem :
    ∀ (cache : List (NodeID × Key)) (n : NodeID) (t : Key),
      lookupNode cache n = some t → (n, t) ∈ cache := by
  intro cache
  induction cache with
  | nil => intro n t h; simp [lookupNode] at h
  | cons p rest ih =>
    intro n t h
    obtain ⟨m, tv⟩ := p
    by_cases hm : m = n
    · subst hm
      simp [lookupNode] at h
      subst h
      simp
    · simp [lookupNode, hm] at h
      exact List.mem_cons_of_mem _ (ih n t h)

theorem emitEntries_spec (marshal : RestoreSpanEntry → Except Err (List Nat))
    (enc : RestoreSpanEntry → List Nat) :
    ∀ (ens : List entryNode) (st : EmitState),
      (∀ x ∈ ens, marshal x.entry = Except.ok (enc x.entry)) →
      st.metaErr = none →
      (∀ p ∈ st.cache, p.2 = (routingDatumsForNode p.1).1) →
      st.derived.Nodup →
      (∀ n : NodeID, n ∈ st.derived ↔ (lookupNode st.cache n).isSome) →
      (emitEntries marshal st ens).rows
          = st.rows ++ ens.map (fun x => ((routingDatumsForNode x.node).1, enc x.entry))
      ∧ (emitEntries marshal st ens).metaErr = none
      ∧ (emitEntries marshal st ens).derived.Nodup
      ∧ (∀ n : NodeID, n ∈ (emitEntries marshal st ens).derived ↔
          n ∈ st.derived ∨ n ∈ ens.map entryNode.node) := by
  intro ens
  induction ens with
  | nil =>
    intro st _ hmeta _ hnd _
    exact ⟨by simp [emitEntries], by simp [emitEntries, hmeta], by simpa [emitEntries] using hnd,
      by simp [emitEntries]⟩
  | cons en rest ih =>
    intro st hmar hmeta hcache hnd hdiff
    have hok : marshal en.entry = Except.ok (enc en.entry) := hmar en (by simp)
    have hmar2 : ∀ x ∈ rest, marshal x.entry = Except.ok (enc x.entry) :=
      fun x hx => hmar x (by simp [hx])
    cases hlook : lookupNode st.cache en.node with
    | some tok =>
      have htok : tok = (routingDatumsForNode en.node).1 :=
        hcache (en.node, tok) (lookupNode_mem st.cache en.node tok hlook)
      have hstep : emitEntries marshal st (en :: rest)
          = emitEntries marshal
              { st with rows := st.rows ++ [(tok, enc en.entry)] } rest := by
        simp [emitEntries, hok, hlook]
      obtain ⟨ih1, ih2, ih3, ih4⟩ :=
        ih { st with rows := st.rows ++ [(tok, enc en.entry)] }
          hmar2 hmeta hcache hnd hdiff
      refine ⟨?_, by rw [hstep]; exact ih2, by rw [hstep]; exact ih3, ?_⟩
      · rw [hstep, ih1, htok]
        simp
      · intro n
        rw [hstep, ih4 n]
        have hmem : n = en.node → n ∈ st.derived := by
          intro hneq
          rw [hneq, hdiff en.node, hlook]
          rfl
        simp only [List.map_cons, List.mem_cons]
        tauto
    | none =>
      have hnotin : en.node ∉ st.derived := by
        rw [hdiff en.node, hlook]
        simp
      have hstep : emitEntries marshal st (en :: rest)
          = emitEntries marshal
              { st with
                cache := (en.node, (routingDatumsForNode en.node).1) :: st.cache,
                derived := st.derived ++ [en.node],
                rows := st.rows ++ [((routingDatumsForNode en.node).1, enc en.entry)] }
              rest := by
        simp [emitEntries, hok, hlook]
      have hcache2 : ∀ p ∈ ((en.node, (routingDatumsForNode en.node).1) :: st.cache),
          p.2 = (routingDatumsForNode p.1).1 := by
        intro p hp
        rcases List.mem_cons.mp hp with hp | hp
        · subst hp; rfl
        · exact hcache p hp
      have hnd2 : (st.derived ++ [en.node]).Nodup := by
        rw [List.nodup_append]
        exact ⟨hnd, List.nodup_singleton _, by simpa using hnotin⟩
      have hdiff2 : ∀ n : NodeID, n ∈ st.derived ++ [en.node] ↔
          (lookupNode ((en.node, (routingDatumsForNode en.node).1) :: st.cache) n).isSome := by
        intro n
        by_cases hn : en.node = n
        · subst hn
          simp [lookupNode]
        · simp only [List.mem_append, List.mem_singleton, lookupNode, hn, if_false]
          rw [hdiff n]
          constructor
          · intro h
            rcases h with h | h
            · exact h
            · exact absurd h.symm hn
          · exact Or.inl
      obtain ⟨ih1, ih2, ih3, ih4⟩ :=
        ih { st with
              cache := (en.node, (routingDatumsForNode en.node).1) :: st.cache,
              derived := st.derived ++ [en.node],
              rows := st.rows ++ [((routingDatumsForNode en.node).1, enc en.entry)] }
          hmar2 hmeta hcache2 hnd2 hdiff2
      refine ⟨?_, by rw [hstep]; exact ih2, by rw [hstep]; exact ih3, ?_⟩
      · rw [hstep, ih1]
        simp
      · intro n
        rw [hstep, ih4 n]
        simp only [List.mem_append, List.mem_singleton, List.map_cons, List.mem_cons,
          List.not_mem_nil, or_false]
        tauto

theorem emitEntries_fail (marshal : RestoreSpanEntry → Except Err (List Nat))
    (enc : RestoreSpanEntry → List Nat) (e : Err) :
    ∀ (ens1 : List entryNode) (en : entryNode) (ens2 : List entryNode) (st : EmitState),
      (∀ x ∈ ens1, marshal x.entry = Except.ok (enc x.entry)) →
      marshal en.entry = Except.error e →
      (∀ p ∈ st.cache, p.2 = (routingDatumsForNode p.1).1) →
      (emitEntries marshal st (ens1 ++ en :: ens2)).rows
          = st.rows ++ ens1.map (fun x => ((routingDatumsForNode x.node).1, enc x.entry))
      ∧ (emitEntries marshal st (ens1 ++ en :: ens2)).metaErr = some e := by
  intro ens1
  induction ens1 with
  | nil =>
    intro en ens2 st _ hbad _
    simp [emitEntries, hbad]
  | cons x rest ih =>
    intro en ens2 st hmar hbad hcache
    have hok : marshal x.entry = Except.ok (enc x.entry) := hmar x (by simp)
    have hmar2 : ∀ y ∈ rest, marshal y.entry = Except.ok (enc y.entry) :=
      fun y hy => hmar y (by simp [hy])
    cases hlook : lookupNode st.cache x.node with
    | some tok =>
      have htok : tok = (routingDatumsForNode x.node).1 :=
        hcache (x.node, tok) (lookupNode_mem st.cache x.node tok hlook)
      have hstep : emitEntries marshal st ((x :: rest) ++ en :: ens2)
          = emitEntries marshal
              { st with rows := st.rows ++ [(tok, enc x.entry)] } (rest ++ en :: ens2) := by
        simp [emitEntries, hok, hlook]
      obtain ⟨ih1, ih2⟩ :=
        ih en ens2 { st with rows := st.rows ++ [(tok, enc x.entry)] } hmar2 hbad hcache
      refine ⟨?_, by rw [hstep]; exact ih2⟩
      rw [hstep, ih1, htok]
      simp
    | none =>
      have hcache2 : ∀ p ∈ ((x.node, (routingDatumsForNode x.node).1) :: st.cache),
          p.2 = (routingDatumsForNode p.1).1 := by
        intro p hp
        rcases List.mem_cons.mp hp with hp | hp
        · subst hp; rfl
        · exact hcache p hp
      have hstep : emitEntries marshal st ((x :: rest) ++ en :: ens2)
          = emitEntries marshal
              { st with
                cache := (x.node, (routingDatumsForNode x.node).1) :: st.cache,
                derived := st.derived ++ [x.node],
                rows := st.rows ++ [((routingDatumsForNode x.node).1, enc x.entry)] }
              (rest ++ en :: ens2) := by
        simp [emitEntries, hok, hlook]
      obtain ⟨ih1, ih2⟩ :=
        ih en ens2
          { st with
            cache := (x.node, (routingDatumsForNode x.node).1) :: st.cache,
            derived := st.derived ++ [x.node],
            rows := st.rows ++ [((routingDatumsForNode x.node).1, enc x.entry)] }
          hmar2 hbad hcache2
      refine ⟨?_, by rw [hstep]; exact ih2⟩
      rw [hstep, ih1]
      simp

/-- A small concrete entry used to instantiate the theorems. -/
def exEntry (k : Nat) : RestoreSpanEntry := ⟨⟨[k], [k, 255]⟩, [k]⟩

/-- A concrete two-entry chunk. -/
def exChunkA : RestoreEntryChunk := ⟨[exEntry 0, exEntry 1]⟩

/-- A concrete one-entry chunk. -/
def exChunkB : RestoreEntryChunk := ⟨[exEntry 2]⟩

/-- A concrete scatterer whose splits all succeed and whose scatter
destination depends on the key. -/
def exScatterer : splitAndScatterer where
  split := fun _ => none
  scatter := fun k => Except.ok (k.headD 0 + 5)

/-- A concrete serialization function. -/
def exEnc (e : RestoreSpanEntry) : List Nat := e.span.key

/-- A concrete scatterer whose split fails on the key `[2]`. -/
def exFailSplit : splitAndScatterer where
  split := fun k => if k = [2] then some (Err.generic 7) else none
  scatter := fun _ => Except.ok 3

/-- A concrete key rewriter that always succeeds. -/
def exKR : KeyRewriter where
  rewriteSpanKey := fun k => Except.ok (0 :: k)

/-- A concrete key rewriter that fails on the key `[9]`. -/
def exKRFail : KeyRewriter where
  rewriteSpanKey := fun k =>
    if k = [9] then Except.error (Err.generic 1) else Except.ok (0 :: k)

/-- A concrete database oracle whose scatter request always errors. -/
def exDBScatterFail : DB where
  adminSplit := fun _ => none
  adminScatter := fun _ => Except.error (Err.generic 2)

/-- C1: for every chunk list with non-empty chunks, when no split,
scatter or serialization error occurs, the completion channel
receives every input entry exactly once (the published list is
exactly the concatenation, chunk by chunk and in order within each
chunk, of the input entries), each paired with the destination the
scatter call on its chunk's leading key returned; consequently the
output rows are exactly one row per input entry, carrying that
destination's routing datum. -/
theorem claim1_entries_emitted_once (s : splitAndScatterer)
    (enc : RestoreSpanEntry → List Nat) (chunks : List RestoreEntryChunk)
    (hne : ∀ c ∈ chunks, c.entries ≠ [])
    (hok : (runSplitAndScatter s chunks).2 = none) :
    publishedEntries (runSplitAndScatter s chunks).1
      = (chunks.map (fun c => c.entries.map (fun e => ⟨e, chunkDest s c⟩))).flatten
    ∧ (∀ c ∈ chunks, s.scatter (leadKey c) = Except.ok (chunkDest s c))
    ∧ (splitAndScatterProcessor.Run s (fun e => Except.ok (enc e)) chunks).rows
        = (chunks.map (fun c => c.entries.map
            (fun e => ((routingDatumsForNode (chunkDest s c)).1, enc e)))).flatten
    ∧ (splitAndScatterProcessor.Run s (fun e => Except.ok (enc e)) chunks).metas = [] := by
  obtain ⟨hpub, hscat⟩ := runSplitAndScatter_ok s chunks hok
  obtain ⟨hrows, hmeta, _, _⟩ :=
    emitEntries_spec (fun e => Except.ok (enc e)) enc
      (publishedEntries (runSplitAndScatter s chunks).1) initEmitState
      (fun x _ => rfl) rfl (by simp [initEmitState]) (by simp [initEmitState])
      (by simp [initEmitState, lookupNode])
  refine ⟨hpub, hscat, ?_, ?_⟩
  · show (emitEntries (fun e => Except.ok (enc e)) initEmitState
        (publishedEntries (runSplitAndScatter s chunks).1)).rows = _
    rw [hrows, hpub]
    have hfun : ((List.map fun x : entryNode => ((routingDatumsForNode x.node).1, enc x.entry)) ∘
        fun c : RestoreEntryChunk =>
          List.map (fun e => ({ entry := e, node := chunkDest s c } : entryNode)) c.entries)
        = fun c : RestoreEntryChunk =>
            List.map (fun e => ((routingDatumsForNode (chunkDest s c)).1, enc e)) c.entries := by
      funext c
      simp [List.map_map, Function.comp]
    simp only [initEmitState, List.nil_append, List.map_flatten, List.map_map]
    rw [hfun]
  · show (match (emitEntries (fun e => Except.ok (enc e)) initEmitState
        (publishedEntries (runSplitAndScatter s chunks).1)).metaErr with
      | some e => [e]
      | none => []) ++ (match (runSplitAndScatter s chunks).2 with
      | some e => [e]
      | none => []) = []
    rw [hmeta, hok]
    rfl

/-- Closed instance of C1 at a concrete scatterer and chunk list. -/
theorem claim1_witness :
    publishedEntries (runSplitAndScatter exScatterer [exChunkA, exChunkB]).1
      = ([exChunkA, exChunkB].map
          (fun c => c.entries.map (fun e => ⟨e, chunkDest exScatterer c⟩))).flatten
    ∧ (∀ c ∈ [exChunkA, exChunkB],
        exScatterer.scatter (leadKey c) = Except.ok (chunkDest exScatterer c))
    ∧ (splitAndScatterProcessor.Run exScatterer (fun e => Except.ok (exEnc e))
        [exChunkA, exChunkB]).rows
        = ([exChunkA, exChunkB].map (fun c => c.entries.map
            (fun e => ((routingDatumsForNode (chunkDest exScatterer c)).1, exEnc e)))).flatten
    ∧ (splitAndScatterProcessor.Run exScatterer (fun e => Except.ok (exEnc e))
        [exChunkA, exChunkB]).metas = [] :=
  claim1_entries_emitted_once exScatterer exEnc [exChunkA, exChunkB]
    (by decide) (by decide)

/-- C2 (amended): the dispatcher processes chunks strictly in input
order, and its call sequence is always an initial segment of
`dispatcherTrace` — for every chunk index `i` with a successor chunk,
the split at the next chunk's leading key immediately precedes the
scatter of the current chunk's leading key, and on an error-free run
the call sequence is exactly that trace.  In particular the only
split call preceding the first chunk's scatter is the boundary split
at the second chunk's leading key (and there is none when only one
chunk exists) — not, as the claim stated, no split call at all. -/
theorem claim2_dispatcher_order (s : splitAndScatterer)
    (chunks : List RestoreEntryChunk) :
    (∃ k, (runDispatcher s chunks).1 = (dispatcherTrace chunks).take k)
    ∧ ((runDispatcher s chunks).2.2 = none →
        (runDispatcher s chunks).1 = dispatcherTrace chunks) :=
  ⟨runDispatcher_trace_initial s chunks,
    fun h => (runDispatcher_ok s chunks h).1⟩

/-- Closed instance of the amended C2 at a concrete input. -/
theorem claim2_witness :
    (runDispatcher exScatterer [exChunkA, exChunkB]).1
      = dispatcherTrace [exChunkA, exChunkB] :=
  (claim2_dispatcher_order exScatterer [exChunkA, exChunkB]).2 (by decide)

/-- C2 is refuted as stated: with two chunks, the dispatcher's very
first call is the boundary split at the second chunk's leading key,
which therefore precedes the first chunk's scatter (the second
event), contradicting the clause that no split call precedes the
first chunk's scatter. -/
theorem claim2_counterexample :
    ((runDispatcher noopSplitAndScatterer [exChunkA, exChunkB]).1).head?
        = some (PEvent.splitCall (leadKey exChunkB))
    ∧ ((runDispatcher noopSplitAndScatterer [exChunkA, exChunkB]).1)[1]?
        = some (PEvent.scatterCall (leadKey exChunkA)) := by
  decide

/-- C3: the worker that claims a chunk processes its entries in
order: its event sequence is always an initial segment of
`workerChunkTrace` — for every entry with a successor, the split at
the next entry's start key immediately precedes the publication of
the current entry paired with the chunk's destination, and the last
entry is published with no preceding intra-chunk split; on an
error-free run the sequence is exactly that trace. -/
theorem claim3_worker_order (s : splitAndScatterer) (dest : NodeID)
    (es : List RestoreSpanEntry) :
    (∃ k, (processEntries s dest es).1 = (workerChunkTrace dest es).take k)
    ∧ ((processEntries s dest es).2 = none →
        (processEntries s dest es).1 = workerChunkTrace dest es) :=
  ⟨processEntries_trace_initial s dest es, processEntries_ok s dest es⟩

/-- Closed instance of C3 at a concrete input. -/
theorem claim3_witness :
    (processEntries exScatterer 5 [exEntry 0, exEntry 1]).1
      = workerChunkTrace 5 [exEntry 0, exEntry 1] :=
  (claim3_worker_order exScatterer 5 [exEntry 0, exEntry 1]).2 (by decide)

/-- C4: on the live scatterer with both collaborators configured,
when the key rewrite succeeds but the relocation (scatter) request
itself errors, `scatter` swallows the failure and returns node 0 with
no error, so the pipeline continues. -/
theorem claim4_scatter_rpc_error_swallowed (dbo : DB) (kro : KeyRewriter)
    (k nk : Key) (e : Err)
    (hrw : kro.rewriteSpanKey k = Except.ok nk)
    (hrpc : dbo.adminScatter nk = Except.error e) :
    dbSplitAndScatterer.scatter ⟨some dbo, some kro⟩ k = Except.ok 0 := by
  simp [dbSplitAndScatterer.scatter, hrw, hrpc]

/-- Closed instance of C4 at a concrete oracle. -/
theorem claim4_witness :
    dbSplitAndScatterer.scatter ⟨some exDBScatterFail, some exKR⟩ [1]
      = Except.ok 0 :=
  claim4_scatter_rpc_error_swallowed exDBScatterFail exKR [1] [0, 1]
    (Err.generic 2) rfl rfl

/-- C5: when a split (or scatter) call fails in the dispatcher while
the workers and serialization do not fail, the run terminates with
exactly one error metadata message — the failing call's error — and
rows are produced only for the chunks the dispatcher had already
dispatched before the failure point, never for later chunks. -/
theorem claim5_split_failure (s : splitAndScatterer)
    (enc : RestoreSpanEntry → List Nat)
    (chunks : List RestoreEntryChunk) (e : Err)
    (hd : (runDispatcher s chunks).2.2 = some e)
    (hw : (runSSWorkers s (runDispatcher s chunks).2.1).2 = none) :
    (splitAndScatterProcessor.Run s (fun x => Except.ok (enc x)) chunks).metas = [e]
    ∧ ∃ j, j < chunks.length ∧
        (splitAndScatterProcessor.Run s (fun x => Except.ok (enc x)) chunks).rows
          = ((chunks.take j).map (fun c => c.entries.map
              (fun x => ((routingDatumsForNode (chunkDest s c)).1, enc x)))).flatten := by
  have hbg : (runSplitAndScatter s chunks).2 = some e := by
    simp [runSplitAndScatter, hd]
  obtain ⟨j, hj, hscs⟩ := runDispatcher_err s chunks e hd
  have hpubw := runSSWorkers_ok s (runDispatcher s chunks).2.1 hw
  have hfun2 : ((fun sc : scatteredChunk =>
        sc.entries.map (fun x => ({ entry := x, node := sc.destination } : entryNode))) ∘
      (fun c : RestoreEntryChunk =>
        ({ destination := chunkDest s c, entries := c.entries } : scatteredChunk)))
      = fun c : RestoreEntryChunk =>
          c.entries.map (fun x => ({ entry := x, node := chunkDest s c } : entryNode)) := by
    funext c
    rfl
  have hpub : publishedEntries (runSplitAndScatter s chunks).1
      = ((chunks.take j).map
          (fun c => c.entries.map (fun x => ⟨x, chunkDest s c⟩))).flatten := by
    have h1 : publishedEntries (runSplitAndScatter s chunks).1
        = publishedEntries (runDispatcher s chunks).1
          ++ publishedEntries (runSSWorkers s (runDispatcher s chunks).2.1).1 := by
      simp [runSplitAndScatter, publishedEntries_append]
    rw [h1, runDispatcher_no_publish s chunks, List.nil_append, hpubw, hscs,
      List.map_map, hfun2]
  obtain ⟨hrows, hmeta, _, _⟩ :=
    emitEntries_spec (fun x => Except.ok (enc x)) enc
      (publishedEntries (runSplitAndScatter s chunks).1) initEmitState
      (fun x _ => rfl) rfl (by simp [initEmitState]) (by simp [initEmitState])
      (by simp [initEmitState, lookupNode])
  constructor
  · show (match (emitEntries (fun x => Except.ok (enc x)) initEmitState
        (publishedEntries (runSplitAndScatter s chunks).1)).metaErr with
      | some e2 => [e2]
      | none => []) ++ (match (runSplitAndScatter s chunks).2 with
      | some e2 => [e2]
      | none => []) = [e]
    rw [hmeta, hbg]
    rfl
  · refine ⟨j, hj, ?_⟩
    show (emitEntries (fun x => Except.ok (enc x)) initEmitState
        (publishedEntries (runSplitAndScatter s chunks).1)).rows = _
    rw [hrows, hpub]
    have hfun : ((List.map fun x : entryNode => ((routingDatumsForNode x.node).1, enc x.entry)) ∘
        fun c : RestoreEntryChunk =>
          List.map (fun x => ({ entry := x, node := chunkDest s c } : entryNode)) c.entries)
        = fun c : RestoreEntryChunk =>
            List.map (fun x => ((routingDatumsForNode (chunkDest s c)).1, enc x)) c.entries := by
      funext c
      simp [List.map_map, Function.comp]
    simp only [initEmitState, List.nil_append, List.map_flatten, List.map_map]
    rw [hfun]

/-- Closed instance of C5: a split failure on the boundary of the
second chunk stops the dispatcher before any chunk is dispatched,
exactly one error is reported, and no rows are produced. -/
theorem claim5_witness :
    (splitAndScatterProcessor.Run exFailSplit (fun x => Except.ok (exEnc x))
        [exChunkA, exChunkB]).metas = [Err.generic 7]
    ∧ ∃ j, j < ([exChunkA, exChunkB] : List RestoreEntryChunk).length ∧
        (splitAndScatterProcessor.Run exFailSplit (fun x => Except.ok (exEnc x))
            [exChunkA, exChunkB]).rows
          = (([exChunkA, exChunkB].take j).map (fun c => c.entries.map
              (fun x => ((routingDatumsForNode (chunkDest exFailSplit c)).1, exEnc x)))).flatten :=
  claim5_split_failure exFailSplit exEnc [exChunkA, exChunkB] (Err.generic 7)
    (by decide) (by decide)

/-- C6: on the live scatterer, whenever the key rewriter or the
database handle is unset, both `split` and `scatter` return the
corresponding assertion (configuration) error; the result is the
same for every database oracle, so no cluster request is involved in
producing it. -/
theorem claim6_config_error (s : dbSplitAndScatterer) (k k2 : Key)
    (h : s.kr = none ∨ s.db = none) :
    s.split k = some s.cfgErr ∧ s.scatter k2 = Except.error s.cfgErr := by
  cases hkr : s.kr with
  | none =>
    constructor
    · simp [dbSplitAndScatterer.split, dbSplitAndScatterer.cfgErr, hkr]
    · simp [dbSplitAndScatterer.scatter, dbSplitAndScatterer.cfgErr, hkr]
  | some kro =>
    cases hdb : s.db with
    | none =>
      constructor
      · simp [dbSplitAndScatterer.split, dbSplitAndScatterer.cfgErr, hkr, hdb]
      · simp [dbSplitAndScatterer.scatter, dbSplitAndScatterer.cfgErr, hkr, hdb]
    | some dbo =>
      rcases h with h | h
      · rw [hkr] at h; cases h
      · rw [hdb] at h; cases h

/-- Closed instance of C6 with both collaborators unset. -/
theorem claim6_witness :
    dbSplitAndScatterer.split ⟨none, none⟩ [1]
        = some (dbSplitAndScatterer.cfgErr ⟨none, none⟩)
    ∧ dbSplitAndScatterer.scatter ⟨none, none⟩ [2]
        = Except.error (dbSplitAndScatterer.cfgErr ⟨none, none⟩) :=
  claim6_config_error ⟨none, none⟩ [1] [2] (Or.inl rfl)

/-- C7: the routing tokens for a node are the byte string `node`
followed by the correct decimal rendering of the node ID (the digits
are base-10 digits whose big-endian value is the node ID) as the
start, and the immediate successor key of the start as the end (the
start is below the end, and no key lies strictly between them); the
derivation is a pure function, and the emitting loop derives the
datum at most once per distinct node ID via its cache (the log of
derivations has no duplicates and covers exactly the node IDs that
occur in the drained queue). -/
theorem claim7_routing_tokens (n : NodeID) (enc : RestoreSpanEntry → List Nat)
    (ens : List entryNode) :
    routingDatumsForNode n = (nodeLit ++ decBytes n, (nodeLit ++ decBytes n) ++ [0])
    ∧ valBE (decDigits n) = n
    ∧ (∀ d ∈ decDigits n, d < 10)
    ∧ keyLt (routingDatumsForNode n).1 (routingDatumsForNode n).2 = true
    ∧ (∀ m : Key, keyLt (routingDatumsForNode n).1 m = true →
        keyLt m (routingDatumsForNode n).2 = true → False)
    ∧ (emitEntries (fun x => Except.ok (enc x)) initEmitState ens).derived.Nodup
    ∧ (∀ a : NodeID,
        a ∈ (emitEntries (fun x => Except.ok (enc x)) initEmitState ens).derived ↔
          a ∈ ens.map entryNode.node) := by
  obtain ⟨_, _, hnd, hcover⟩ :=
    emitEntries_spec (fun x => Except.ok (enc x)) enc ens initEmitState
      (fun x _ => rfl) rfl (by simp [initEmitState]) (by simp [initEmitState])
      (by simp [initEmitState, lookupNode])
  refine ⟨rfl, valBE_decDigits n, decDigits_lt10 n, keyLt_self_append_zero _, ?_, hnd, ?_⟩
  · intro m h1 h2
    exact keyLt_succ_adjacent (routingBytes n) m h1 h2
  · intro a
    rw [hcover a]
    simp [initEmitState]

/-- Closed instance of C7 at node 12 and a two-node queue. -/
theorem claim7_witness :
    routingDatumsForNode 12 = (nodeLit ++ decBytes 12, (nodeLit ++ decBytes 12) ++ [0])
    ∧ valBE (decDigits 12) = 12
    ∧ (∀ d ∈ decDigits 12, d < 10)
    ∧ keyLt (routingDatumsForNode 12).1 (routingDatumsForNode 12).2 = true
    ∧ (∀ m : Key, keyLt (routingDatumsForNode 12).1 m = true →
        keyLt m (routingDatumsForNode 12).2 = true → False)
    ∧ (emitEntries (fun x => Except.ok (exEnc x)) initEmitState
        [⟨exEntry 0, 12⟩, ⟨exEntry 1, 12⟩]).derived.Nodup
    ∧ (∀ a : NodeID,
        a ∈ (emitEntries (fun x => Except.ok (exEnc x)) initEmitState
          [⟨exEntry 0, 12⟩, ⟨exEntry 1, 12⟩]).derived ↔
          a ∈ ([⟨exEntry 0, 12⟩, ⟨exEntry 1, 12⟩] : List entryNode).map entryNode.node) :=
  claim7_routing_tokens 12 exEnc [⟨exEntry 0, 12⟩, ⟨exEntry 1, 12⟩]

/-- C8 (amended): each node's token start is strictly below its token
end, and the derivation is collision-free across distinct node IDs;
however the ordering `tokens(a).end ≤ tokens(b).start` for `a < b`
holds only when the decimal renderings of `a` and `b` have the same
length — lexicographic order on the rendered keys does not extend
numeric order across different digit counts. -/
theorem claim8_token_ordering (a b : Nat) (hab : a < b) :
    keyLt (routingDatumsForNode a).1 (routingDatumsForNode a).2 = true
    ∧ routingDatumsForNode a ≠ routingDatumsForNode b
    ∧ ((decDigits a).length = (decDigits b).length →
        keyLe (routingDatumsForNode a).2 (routingDatumsForNode b).1 = true) := by
  refine ⟨keyLt_self_append_zero _, ?_, ?_⟩
  · intro h
    have hfst : routingBytes a = routingBytes b := congrArg Prod.fst h
    exact absurd (routingBytes_injective a b hfst) (Nat.ne_of_lt hab)
  · intro hlen
    have hlt := keyLt_routing_of_lt_same_length a b hab hlen
    show keyLe (routingBytes a ++ [0]) (routingBytes b) = true
    rw [keyLe]
    by_cases heq : routingBytes a ++ [0] = routingBytes b
    · simp [heq]
    · simp [heq]
      exact hlt

/-- Closed instance of the amended C8 at nodes 3 and 7. -/
theorem claim8_witness :
    keyLt (routingDatumsForNode 3).1 (routingDatumsForNode 3).2 = true
    ∧ routingDatumsForNode 3 ≠ routingDatumsForNode 7
    ∧ ((decDigits 3).length = (decDigits 7).length →
        keyLe (routingDatumsForNode 3).2 (routingDatumsForNode 7).1 = true) :=
  claim8_token_ordering 3 7 (by decide)

/-- C8 is refuted as stated: 2 < 10, yet the token end of node 2 is
not at or below the token start of node 10 in lexicographic order,
because the rendered key of node 10 sorts below that of node 2. -/
theorem claim8_counterexample :
    2 < 10
    ∧ keyLe (routingDatumsForNode 2).2 (routingDatumsForNode 10).1 = false
    ∧ keyLt (routingDatumsForNode 10).1 (routingDatumsForNode 2).2 = true := by
  decide

/-- C9: if serializing an entry fails while draining the completion
queue, the emitting loop records that error for the downstream
consumer and stops immediately: the rows pushed are exactly those of
the entries drained before the failing one, and no row is pushed for
the failing entry or for any entry still queued after it. -/
theorem claim9_serialization_failure
    (marshal : RestoreSpanEntry → Except Err (List Nat))
    (enc : RestoreSpanEntry → List Nat) (e : Err)
    (ens1 : List entryNode) (en : entryNode) (ens2 : List entryNode)
    (h1 : ∀ x ∈ ens1, marshal x.entry = Except.ok (enc x.entry))
    (h2 : marshal en.entry = Except.error e) :
    (emitEntries marshal initEmitState (ens1 ++ en :: ens2)).metaErr = some e
    ∧ (emitEntries marshal initEmitState (ens1 ++ en :: ens2)).rows
        = ens1.map (fun x => ((routingDatumsForNode x.node).1, enc x.entry)) := by
  obtain ⟨hrows, hmeta⟩ :=
    emitEntries_fail marshal enc e ens1 en ens2 initEmitState h1 h2
      (by simp [initEmitState])
  refine ⟨hmeta, ?_⟩
  rw [hrows]
  simp [initEmitState]

/-- Closed instance of C9: the second of three queued entries fails
to serialize; only the first entry's row is produced and the
serialization error is recorded. -/
theorem claim9_witness :
    (emitEntries
        (fun x => if x = exEntry 1 then Except.error (Err.generic 9)
          else Except.ok (exEnc x))
        initEmitState
        ([⟨exEntry 0, 5⟩] ++ ⟨exEntry 1, 5⟩ :: [⟨exEntry 2, 6⟩])).metaErr
      = some (Err.generic 9)
    ∧ (emitEntries
        (fun x => if x = exEntry 1 then Except.error (Err.generic 9)
          else Except.ok (exEnc x))
        initEmitState
        ([⟨exEntry 0, 5⟩] ++ ⟨exEntry 1, 5⟩ :: [⟨exEntry 2, 6⟩])).rows
      = ([⟨exEntry 0, 5⟩] : List entryNode).map
          (fun x => ((routingDatumsForNode x.node).1, exEnc x.entry)) :=
  claim9_serialization_failure
    (fun x => if x = exEntry 1 then Except.error (Err.generic 9)
      else Except.ok (exEnc x))
    exEnc (Err.generic 9) [⟨exEntry 0, 5⟩] ⟨exEntry 1, 5⟩ [⟨exEntry 2, 6⟩]
    (by
      intro x hx
      simp at hx
      subst hx
      rfl)
    (by
      show (if exEntry 1 = exEntry 1 then Except.error (Err.generic 9)
        else Except.ok (exEnc (exEntry 1))) = Except.error (Err.generic 9)
      simp)

/-- C10: on the live scatterer with both collaborators configured, a
failure of the key-rewrite step inside `scatter` is returned as an
error (fatal to the pipeline), while a failure of the relocation
request itself is converted to the non-error result of node 0. -/
theorem claim10_rewrite_error_fatal (dbo : DB) (kro : KeyRewriter)
    (k k2 nk2 : Key) (e e2 : Err)
    (hrw : kro.rewriteSpanKey k = Except.error e)
    (hrw2 : kro.rewriteSpanKey k2 = Except.ok nk2)
    (hrpc : dbo.adminScatter nk2 = Except.error e2) :
    dbSplitAndScatterer.scatter ⟨some dbo, some kro⟩ k = Except.error e
    ∧ dbSplitAndScatterer.scatter ⟨some dbo, some kro⟩ k2 = Except.ok 0 := by
  constructor
  · simp [dbSplitAndScatterer.scatter, hrw]
  · simp [dbSplitAndScatterer.scatter, hrw2, hrpc]

/-- Closed instance of C10: the rewriter fails on the key `[9]` but
succeeds on `[1]`, where the failing relocation request is
swallowed. -/
theorem claim10_witness :
    dbSplitAndScatterer.scatter ⟨some exDBScatterFail, some exKRFail⟩ [9]
        = Except.error (Err.generic 1)
    ∧ dbSplitAndScatterer.scatter ⟨some exDBScatterFail, some exKRFail⟩ [1]
        = Except.ok 0 :=
  claim10_rewrite_error_fatal exDBScatterFail exKRFail [9] [1] [0, 1]
    (Err.generic 1) (Err.generic 2)
    (by
      show (if ([9] : Key) = [9] then Except.error (Err.generic 1)
        else Except.ok (0 :: [9])) = Except.error (Err.generic 1)
      simp)
    (by
      show (if ([1] : Key) = [9] then Except.error (Err.generic 1)
        else Except.ok (0 :: [1])) = Except.ok [0, 1]
      simp)
    rfl
